import Mathlib

/-!
Verification development for the Auto-Boost-Av1an-Linux utility scripts.

The definitions below are shallow embeddings of the Python code in
`src/tools/cropdetect.py`, `src/tools/workercount.py` and `src/tools/opus.py`.
Conventions used throughout:

* Python machine integers are modelled as `Nat` when the source can only
  produce non-negative values (e.g. crop keys parsed by the regex
  `crop=(\d+):(\d+):(\d+):(\d+)`), and as `Int` where the source arithmetic
  can go negative (the manual-crop margins).
* Python `float` arithmetic on the crop scores is modelled as exact rational
  (`ℚ`) arithmetic.  All concrete comparisons settled here have margins many
  orders of magnitude above double-precision rounding error.
* A Python `Counter` iterates in insertion order of first occurrence, so the
  observation set of `choose_best_crop` is modelled as an association list
  `List (CropKey × Nat)` in iteration order.
* The dict `crop_to_limits` is modelled by its lookup function
  `CropKey → Finset ℚ`, where a missing key maps to `∅`
  (Python: `crop_to_limits.get(crop_str, set())`).
-/

namespace CropDetect

/-- Frame descriptor, from `VideoInfo` in src/tools/cropdetect.py (only the
fields `width`/`height` are read by `choose_best_crop`). -/
structure VideoInfo where
  width : Nat
  height : Nat
deriving DecidableEq

/-- A canonical rectangle key `w:h:x:y`.  The Python code keys the observation
`Counter` by the string `f"{w}:{h}:{x}:{y}"`; the four components are the
non-negative integers captured by `CROP_RE`, so the key is modelled by its
parsed components. -/
structure CropKey where
  w : Nat
  h : Nat
  x : Nat
  y : Nat
deriving DecidableEq

/-- Render a key back to its `"w:h:x:y"` string form (the dict key /
`crop_str` of the Python code). -/
def CropKey.render (k : CropKey) : String :=
  toString k.w ++ ":" ++ toString k.h ++ ":" ++ toString k.x ++ ":" ++ toString k.y

/-- Result record, from `CropResult` in src/tools/cropdetect.py. -/
structure CropResult where
  crop : String
  w : Nat
  h : Nat
  x : Nat
  y : Nat
  confidence : ℚ
  samples : Nat
  chosen_from_limits : List ℚ
  notes : String
deriving DecidableEq

/-- `area` from src/tools/cropdetect.py line 151. -/
def area (w h : Nat) : Nat := w * h

/-- The observation set: insertion-ordered `(key, count)` pairs of the
`observed : Counter` argument of `choose_best_crop`. -/
abbrev Obs := List (CropKey × Nat)

/-- The `crop_to_limits` mapping, as its lookup-with-default function. -/
abbrev Limits := CropKey → Finset ℚ

/-- `total = sum(observed.values())`, line 222. -/
def totalCount (observed : Obs) : Nat := (observed.map Prod.snd).sum

/-- `lim_support = len(crop_to_limits.get(crop_str, set()))`, line 232. -/
def lim_support (lims : Limits) (k : CropKey) : Nat := (lims k).card

/-- The full-frame test of line 236:
`w == vi.width and h == vi.height and x == 0 and y == 0`. -/
def fullframeKey (vi : VideoInfo) (k : CropKey) : Prop :=
  k.w = vi.width ∧ k.h = vi.height ∧ k.x = 0 ∧ k.y = 0

instance (vi : VideoInfo) (k : CropKey) : Decidable (fullframeKey vi k) := by
  unfold fullframeKey; infer_instance

/-- The score of one candidate, lines 230-237 of src/tools/cropdetect.py:
`freq = count / max(1, total)`, `ar = a / full_area`,
`score = freq*1000 + ar*50 + lim_support*15`, minus `5` when the candidate is
exactly the full frame.  Python float arithmetic is modelled as exact `ℚ`. -/
def score (vi : VideoInfo) (total : Nat) (lims : Limits) (k : CropKey) (c : Nat) : ℚ :=
  let freq : ℚ := (c : ℚ) / ((max 1 total : Nat) : ℚ)
  let ar : ℚ := ((area k.w k.h : Nat) : ℚ) / ((area vi.width vi.height : Nat) : ℚ)
  let base := freq * 1000 + ar * 50 + (lim_support lims k : ℚ) * 15
  if fullframeKey vi k then base - 5 else base

/-- The rejection test of line 227: `if a <= 0 or a > full_area: continue`
(`a <= 0` is `a = 0` for the `Nat`-valued keys produced by the regex). -/
def accepted (vi : VideoInfo) (k : CropKey) : Prop :=
  ¬(area k.w k.h = 0 ∨ area vi.width vi.height < area k.w k.h)

instance (vi : VideoInfo) (k : CropKey) : Decidable (accepted vi k) := by
  unfold accepted; infer_instance

/-- `best_score = -1e18`, line 221. -/
def initScore : ℚ := -(10 ^ 18)

/-- The selection loop of lines 224-241, folded over the observation set in
iteration order.  The state is the Python pair `(best, best_score)`; `best`
keeps only the `(crop_str, count)` part of the Python tuple since every other
stored component (`w,h,x,y,freq,total,lim_support`) is recomputed from it. -/
def bestFold (vi : VideoInfo) (total : Nat) (lims : Limits) :
    Obs → Option (CropKey × Nat) × ℚ → Option (CropKey × Nat) × ℚ
  | [], acc => acc
  | (k, c) :: rest, (best, bs) =>
    if area k.w k.h = 0 ∨ area vi.width vi.height < area k.w k.h then
      bestFold vi total lims rest (best, bs)
    else if bs < score vi total lims k c then
      bestFold vi total lims rest (some (k, c), score vi total lims k c)
    else
      bestFold vi total lims rest (best, bs)

/-- The `best` variable after the loop of lines 224-241 has run over the whole
observation set. -/
def winningEntry (vi : VideoInfo) (observed : Obs) (lims : Limits) :
    Option (CropKey × Nat) :=
  (bestFold vi (totalCount observed) lims observed (none, initScore)).1

/-- The agreement-tier string of lines 248-254. -/
def tierNotes (n : Nat) : String :=
  if 3 ≤ n then "strong" else if n = 2 then "moderate" else "single-threshold"

/-- The `CropResult` built from the winning entry, lines 246-265:
`confidence = count / max(1, total)` (the `freq` stored in `best`),
`samples = total`, `chosen_from_limits = sorted(crop_to_limits.get(key, set()))`
and `notes = f"{tier} agreement"`. -/
def mkResult (observed : Obs) (lims : Limits) (k : CropKey) (c : Nat) : CropResult :=
  { crop := k.render
    w := k.w
    h := k.h
    x := k.x
    y := k.y
    confidence := (c : ℚ) / ((max 1 (totalCount observed) : Nat) : ℚ)
    samples := totalCount observed
    chosen_from_limits := (lims k).sort (· ≤ ·)
    notes := tierNotes (lim_support lims k) ++ " agreement" }

/-- `choose_best_crop` from src/tools/cropdetect.py lines 214-265:
return `None` on an empty observation set (line 217), run the selection loop,
return `None` if no candidate survived the rejection test (line 243), else
build the `CropResult` for the winner. -/
def choose_best_crop (vi : VideoInfo) (observed : Obs) (lims : Limits) :
    Option CropResult :=
  if observed = [] then none
  else
    match winningEntry vi observed lims with
    | none => none
    | some (k, c) => some (mkResult observed lims k c)

/-- Projection of the chosen rectangle `(w, h, x, y)` of a result. -/
def rect (r : CropResult) : Nat × Nat × Nat × Nat := (r.w, r.h, r.x, r.y)

/-- Manual-override result record for the `crop_mode == "manual"` path of
`main` (src/tools/cropdetect.py lines 598-613).  The margins come from
`int(settings.get(k, 0))`, so they are arbitrary integers and the arithmetic
is carried out over `Int`. -/
structure CropResultM where
  crop : String
  w : Int
  h : Int
  x : Int
  y : Int
  confidence : ℚ
  samples : Nat
  notes : String
deriving DecidableEq

/-- The manual-override synthesis of src/tools/cropdetect.py lines 598-613:
`mw = width - left - right`, `mh = height - top - bottom`; if `mw <= 0 or
mh <= 0` both dimensions are replaced by the full-frame dimensions, and the
result is `CropResult(f"{mw}:{mh}:{left}:{top}", mw, mh, left, top, 1.0, 1,
[], "Manual")` — note that the offsets `x`/`y` are taken from the margins
unconditionally, also in the fallback branch. -/
def manual_crop_result (width height top bottom left rightMargin : Int) : CropResultM :=
  let mw := width - left - rightMargin
  let mh := height - top - bottom
  let mw2 := if mw ≤ 0 ∨ mh ≤ 0 then width else mw
  let mh2 := if mw ≤ 0 ∨ mh ≤ 0 then height else mh
  { crop := toString mw2 ++ ":" ++ toString mh2 ++ ":" ++ toString left ++ ":" ++ toString top
    w := mw2
    h := mh2
    x := left
    y := top
    confidence := 1
    samples := 1
    notes := "Manual" }

/-- Limits map assigning no threshold to any key. -/
def noLimits : Limits := fun _ => ∅

/-- Limits map assigning the single threshold `0.1` to every key. -/
def oneTenthAll : Limits := fun _ => {(1 : ℚ) / 10}

/-- Limits map assigning three distinct thresholds to every key. -/
def threeLimitsAll : Limits := fun _ => {(1 : ℚ) / 10, (1 : ℚ) / 5, (3 : ℚ) / 10}

end CropDetect

namespace WorkerCount

/-- `get_optimal_workers` from src/tools/workercount.py lines 58-148, with the
process interaction abstracted into its two observable inputs: whether the
`av1an` test process could be started (`started`; `False` models the
`FileNotFoundError` branch returning 1) and the peak RSS measured while it ran
(`max_total_rss`; `0` models the "could not measure RAM" branch returning 1).
Otherwise the code computes `safe_ram_limit = total_ram * 0.90`,
`max_workers_ram = int(safe_ram_limit / max_total_rss)`,
`max_workers_cpu = int(cpu_threads / 3)` and returns
`max(1, min(max_workers_ram, max_workers_cpu))`; the float truncations of the
non-negative quotients are the `Nat` divisions `9*ram / (10*rss)` and
`cpu / 3`. -/
def get_optimal_workers (started : Bool) (max_total_rss total_ram cpu_threads : Nat) : Nat :=
  if started then
    if max_total_rss = 0 then 1
    else max 1 (min (9 * total_ram / (10 * max_total_rss)) (cpu_threads / 3))
  else 1

/-- The `__main__` guard of src/tools/workercount.py lines 150-155: the value
written to the config file is `1` when the sample file is missing, else the
value returned by `get_optimal_workers`. -/
def main_workers (sample_exists started : Bool) (max_total_rss total_ram cpu_threads : Nat) : Nat :=
  if sample_exists then get_optimal_workers started max_total_rss total_ram cpu_threads
  else 1

end WorkerCount

namespace Opus

/-- The `except` fallback of `get_audio_channels`
(src/tools/opus.py lines 145-152): probing failures return the string `"2"`. -/
def get_audio_channels_fallback : String := "2"

/-- The bitrate value selected by the strategy of `worker_opus`
(src/tools/opus.py lines 209-218) as a number, for the branch where
`int(channels)` parsed to `ch`. -/
def opus_bitrate_num (ch : Int) : Nat :=
  if 8 ≤ ch then 320 else if 6 ≤ ch then 256 else if 2 ≤ ch then 128 else 96

/-- The bitrate strategy of `worker_opus` (src/tools/opus.py lines 209-218):
`bitrate = "128"`; try `ch_int = int(channels)` and pick `"320"` for `>= 8`,
`"256"` for `>= 6`, `"128"` for `>= 2`, else `"96"`; any parse failure keeps
`"128"`.  The probed channel string is modelled by its parse result
`Option Int` (`none` = `int()` raised). -/
def opus_bitrate (channels : Option Int) : String :=
  match channels with
  | none => "128"
  | some ch =>
    if 8 ≤ ch then "320"
    else if 6 ≤ ch then "256"
    else if 2 ≤ ch then "128"
    else "96"

end Opus

section RatEval
attribute [local semireducible] Rat.add Rat.mul Rat.inv Rat.sub Rat.ofScientific

namespace CropDetect

/-- Every candidate score is at least `-5`: the three raw components are
non-negative and the full-frame penalty subtracts exactly `5`. -/
theorem score_ge (vi : VideoInfo) (total : Nat) (lims : Limits) (k : CropKey) (c : Nat) :
    (-5 : ℚ) ≤ score vi total lims k c := by
  have h1 : (0 : ℚ) ≤ (c : ℚ) / ((max 1 total : Nat) : ℚ) :=
    div_nonneg (Nat.cast_nonneg c) (Nat.cast_nonneg _)
  have h2 : (0 : ℚ) ≤ ((area k.w k.h : Nat) : ℚ) / ((area vi.width vi.height : Nat) : ℚ) :=
    div_nonneg (Nat.cast_nonneg _) (Nat.cast_nonneg _)
  have h3 : (0 : ℚ) ≤ (lim_support lims k : ℚ) := Nat.cast_nonneg _
  have m1 := mul_nonneg h1 (by norm_num : (0 : ℚ) ≤ 1000)
  have m2 := mul_nonneg h2 (by norm_num : (0 : ℚ) ≤ 50)
  have m3 := mul_nonneg h3 (by norm_num : (0 : ℚ) ≤ 15)
  simp only [score]
  split_ifs <;> linarith

/-- The loop's running best score never decreases. -/
theorem bestFold_snd_le (vi : VideoInfo) (total : Nat) (lims : Limits) :
    ∀ (l : Obs) (acc : Option (CropKey × Nat) × ℚ), acc.2 ≤ (bestFold vi total lims l acc).2 := by
  intro l
  induction l with
  | nil => intro acc; simp [bestFold]
  | cons a rest ih =>
    intro acc
    obtain ⟨k, c⟩ := a
    obtain ⟨best, bs⟩ := acc
    simp only [bestFold]
    split_ifs with h1 h2
    · exact ih (best, bs)
    · exact le_trans (le_of_lt h2) (ih (some (k, c), score vi total lims k c))
    · exact ih (best, bs)

/-- The final best score dominates the score of every accepted entry. -/
theorem bestFold_le_of_mem (vi : VideoInfo) (total : Nat) (lims : Limits) :
    ∀ (l : Obs) (acc : Option (CropKey × Nat) × ℚ) (e : CropKey × Nat), e ∈ l →
      accepted vi e.1 → score vi total lims e.1 e.2 ≤ (bestFold vi total lims l acc).2 := by
  intro l
  induction l with
  | nil => intro acc e he; cases he
  | cons a rest ih =>
    intro acc e he hacc
    obtain ⟨k, c⟩ := a
    obtain ⟨best, bs⟩ := acc
    simp only [bestFold]
    rcases List.mem_cons.mp he with heq | hmem
    · subst heq
      rw [if_neg hacc]
      split_ifs with h2
      · exact bestFold_snd_le vi total lims rest (some (k, c), score vi total lims k c)
      · exact le_trans (not_lt.mp h2) (bestFold_snd_le vi total lims rest (best, bs))
    · split_ifs with h1 h2
      · exact ih (best, bs) e hmem hacc
      · exact ih (some (k, c), score vi total lims k c) e hmem hacc
      · exact ih (best, bs) e hmem hacc

/-- If the loop never selected a candidate, the state is unchanged. -/
theorem bestFold_none (vi : VideoInfo) (total : Nat) (lims : Limits) :
    ∀ (l : Obs) (acc : Option (CropKey × Nat) × ℚ),
      (bestFold vi total lims l acc).1 = none →
      acc.1 = none ∧ (bestFold vi total lims l acc).2 = acc.2 := by
  intro l
  induction l with
  | nil => intro acc h; exact ⟨h, rfl⟩
  | cons a rest ih =>
    intro acc h
    obtain ⟨k, c⟩ := a
    obtain ⟨best, bs⟩ := acc
    simp only [bestFold] at h ⊢
    split_ifs at h ⊢ with h1 h2
    · exact ih (best, bs) h
    · exact absurd (ih (some (k, c), score vi total lims k c) h).1 (by simp)
    · exact ih (best, bs) h

/-- If the loop selected a candidate, it is an accepted member of the list
(or was already selected in the initial state), and the final best score is
its score. -/
theorem bestFold_some (vi : VideoInfo) (total : Nat) (lims : Limits) :
    ∀ (l : Obs) (acc : Option (CropKey × Nat) × ℚ) (e : CropKey × Nat),
      (∀ e₀, acc.1 = some e₀ → score vi total lims e₀.1 e₀.2 = acc.2) →
      (bestFold vi total lims l acc).1 = some e →
      score vi total lims e.1 e.2 = (bestFold vi total lims l acc).2 ∧
        (acc.1 = some e ∨ (e ∈ l ∧ accepted vi e.1)) := by
  intro l
  induction l with
  | nil => intro acc e hinv h; exact ⟨hinv e h, Or.inl h⟩
  | cons a rest ih =>
    intro acc e hinv h
    obtain ⟨k, c⟩ := a
    obtain ⟨best, bs⟩ := acc
    simp only [bestFold] at h ⊢
    split_ifs at h ⊢ with h1 h2
    · obtain ⟨hs, hd⟩ := ih (best, bs) e hinv h
      refine ⟨hs, ?_⟩
      rcases hd with hb | ⟨hm, ha⟩
      · exact Or.inl hb
      · exact Or.inr ⟨List.mem_cons_of_mem _ hm, ha⟩
    · have hinv₂ : ∀ e₀, (some (k, c), score vi total lims k c).1 = some e₀ →
          score vi total lims e₀.1 e₀.2 = (some (k, c), score vi total lims k c).2 := by
        intro e₀ h₀
        obtain rfl : (k, c) = e₀ := Option.some.inj h₀
        rfl
      obtain ⟨hs, hd⟩ := ih (some (k, c), score vi total lims k c) e hinv₂ h
      refine ⟨hs, ?_⟩
      rcases hd with hb | ⟨hm, ha⟩
      · obtain rfl : (k, c) = e := Option.some.inj hb
        exact Or.inr ⟨List.mem_cons_self _ _, h1⟩
      · exact Or.inr ⟨List.mem_cons_of_mem _ hm, ha⟩
    · obtain ⟨hs, hd⟩ := ih (best, bs) e hinv h
      refine ⟨hs, ?_⟩
      rcases hd with hb | ⟨hm, ha⟩
      · exact Or.inl hb
      · exact Or.inr ⟨List.mem_cons_of_mem _ hm, ha⟩

/-- `-1e18` is below every reachable score. -/
theorem initScore_lt : initScore < -5 := by
  unfold initScore; norm_num

/-- A selected winner is an accepted member of the observation set. -/
theorem winningEntry_mem (vi : VideoInfo) (observed : Obs) (lims : Limits) (k : CropKey)
    (c : Nat) (h : winningEntry vi observed lims = some (k, c)) :
    (k, c) ∈ observed ∧ accepted vi k := by
  unfold winningEntry at h
  obtain ⟨hs, hd⟩ := bestFold_some vi (totalCount observed) lims observed (none, initScore)
    (k, c) (by intro e₀ h₀; cases h₀) h
  rcases hd with hb | hd
  · cases hb
  · exact hd

/-- The loop keeps `best = None` exactly when every entry is rejected. -/
theorem winningEntry_none_iff (vi : VideoInfo) (observed : Obs) (lims : Limits) :
    winningEntry vi observed lims = none ↔ ∀ e ∈ observed, ¬accepted vi e.1 := by
  constructor
  · intro h e he hacc
    have hle := bestFold_le_of_mem vi (totalCount observed) lims observed (none, initScore) e he hacc
    have h0 := bestFold_none vi (totalCount observed) lims observed (none, initScore) h
    rw [h0.2] at hle
    have h5 := score_ge vi (totalCount observed) lims e.1 e.2
    have := initScore_lt
    linarith
  · intro hall
    unfold winningEntry
    cases hw : (bestFold vi (totalCount observed) lims observed (none, initScore)).1 with
    | none => rfl
    | some e =>
      obtain ⟨hs, hd⟩ := bestFold_some vi (totalCount observed) lims observed (none, initScore)
        e (by intro e₀ h₀; cases h₀) hw
      rcases hd with hb | ⟨hm, ha⟩
      · cases hb
      · exact absurd ha (hall e hm)

/-- If an accepted member's score dominates every accepted entry, and it is
the unique entry attaining that score, the loop selects exactly it. -/
theorem winningEntry_eq_of_max (vi : VideoInfo) (observed : Obs) (lims : Limits)
    (k : CropKey) (c : Nat) (hmem : (k, c) ∈ observed) (hacc : accepted vi k)
    (hmax : ∀ e ∈ observed, accepted vi e.1 →
      score vi (totalCount observed) lims e.1 e.2 ≤ score vi (totalCount observed) lims k c)
    (huniq : ∀ e ∈ observed, accepted vi e.1 →
      score vi (totalCount observed) lims e.1 e.2 = score vi (totalCount observed) lims k c →
      e = (k, c)) :
    winningEntry vi observed lims = some (k, c) := by
  have hge := bestFold_le_of_mem vi (totalCount observed) lims observed (none, initScore)
    (k, c) hmem hacc
  unfold winningEntry
  cases hw : (bestFold vi (totalCount observed) lims observed (none, initScore)).1 with
  | none =>
    exfalso
    have h0 := bestFold_none vi (totalCount observed) lims observed (none, initScore) hw
    rw [h0.2] at hge
    have h5 := score_ge vi (totalCount observed) lims k c
    have := initScore_lt
    linarith
  | some e =>
    obtain ⟨hs, hd⟩ := bestFold_some vi (totalCount observed) lims observed (none, initScore)
      e (by intro e₀ h₀; cases h₀) hw
    rcases hd with hb | ⟨hm, ha⟩
    · cases hb
    · rw [← hs] at hge
      have heq := huniq e hm ha (le_antisymm (hmax e hm ha) hge)
      rw [heq]

/-- `choose_best_crop` returns `None` when the loop selected nothing. -/
theorem choose_of_winning_none (vi : VideoInfo) (observed : Obs) (lims : Limits)
    (h : winningEntry vi observed lims = none) :
    choose_best_crop vi observed lims = none := by
  unfold choose_best_crop
  rw [h]
  split_ifs <;> rfl

/-- `choose_best_crop` returns the record built from the loop's winner. -/
theorem choose_of_winning_some (vi : VideoInfo) (observed : Obs) (lims : Limits)
    (k : CropKey) (c : Nat) (h : winningEntry vi observed lims = some (k, c)) :
    choose_best_crop vi observed lims = some (mkResult observed lims k c) := by
  have hne : observed ≠ [] := by
    intro he
    subst he
    simp [winningEntry, bestFold] at h
  unfold choose_best_crop
  rw [if_neg hne, h]

/-- Every returned record comes from a selected winner. -/
theorem choose_some_inv (vi : VideoInfo) (observed : Obs) (lims : Limits) (r : CropResult)
    (h : choose_best_crop vi observed lims = some r) :
    ∃ k c, winningEntry vi observed lims = some (k, c) ∧ r = mkResult observed lims k c := by
  unfold choose_best_crop at h
  by_cases he : observed = []
  · rw [if_pos he] at h
    exact absurd h (by simp)
  · rw [if_neg he] at h
    cases hw : winningEntry vi observed lims with
    | none =>
      rw [hw] at h
      exact absurd h (by simp)
    | some kc =>
      obtain ⟨k, c⟩ := kc
      rw [hw] at h
      have h₂ : some (mkResult observed lims k c) = some r := h
      exact ⟨k, c, rfl, (Option.some.inj h₂).symm⟩

/-- Each individual count is bounded by the raw total. -/
theorem count_le_total : ∀ (l : Obs) (k : CropKey) (c : Nat), (k, c) ∈ l → c ≤ totalCount l := by
  intro l
  induction l with
  | nil => intro k c h; cases h
  | cons a rest ih =>
    intro k c h
    rcases List.mem_cons.mp h with heq | hm
    · subst heq
      simp only [totalCount, List.map_cons, List.sum_cons]
      exact Nat.le_add_right _ _
    · have := ih k c hm
      simp only [totalCount, List.map_cons, List.sum_cons] at *
      omega

/-- For a member entry, dividing by `max 1 total` agrees with dividing by the
raw total (when the raw total is `0` every count is `0` and both sides are
`0`). -/
theorem confidence_div (l : Obs) (k : CropKey) (c : Nat) (h : (k, c) ∈ l) :
    (c : ℚ) / ((max 1 (totalCount l) : Nat) : ℚ) = (c : ℚ) / ((totalCount l : Nat) : ℚ) := by
  cases ht : totalCount l with
  | zero =>
    have hc : c = 0 := by
      have := count_le_total l k c h
      omega
    subst hc
    simp
  | succ n =>
    rw [Nat.max_eq_right (by omega : 1 ≤ n + 1)]

end CropDetect

end RatEval

section Claims1
attribute [local semireducible] Rat.add Rat.mul Rat.inv Rat.sub Rat.ofScientific

namespace CropDetect

/-- The two-candidate observation set of the spec's full-frame-penalty test
case: the full frame with count 10 and the crop `1920:800:0:140` with
count 10. -/
def obsC1 : Obs := [(⟨1920, 1080, 0, 0⟩, 10), (⟨1920, 800, 0, 140⟩, 10)]

/-- The same observation set with the opposite insertion order. -/
def obsC1r : Obs := [(⟨1920, 800, 0, 140⟩, 10), (⟨1920, 1080, 0, 0⟩, 10)]

/-- The limits map of the spec's full-frame-penalty test case: each of the
two observed keys is supported by exactly the threshold set `{0.1}`. -/
def limsC1 : Limits := fun k =>
  if k = ⟨1920, 1080, 0, 0⟩ ∨ k = ⟨1920, 800, 0, 140⟩ then {(1 : ℚ) / 10} else ∅

/-- Claim C1, counterexample.  The claim asserts that for `W=1920, H=1080`,
full-frame key count 10 at thresholds `{0.1}` and crop key `1920:800:0:140`
count 10 at thresholds `{0.1}`, `choose_best_crop` returns the crop candidate
`1920:800:0:140`.  It does not: in either insertion order the code returns
the full frame, because the area-ratio term gives the full frame `+50`
but the crop only `+50*(800/1080) = +1000/27 ≈ 37.04`, which outweighs the
`-5` full-frame penalty. -/
theorem fullframe_penalty_counterexample :
    (choose_best_crop ⟨1920, 1080⟩ obsC1 limsC1).map rect ≠ some (1920, 800, 0, 140) ∧
    (choose_best_crop ⟨1920, 1080⟩ obsC1r limsC1).map rect ≠ some (1920, 800, 0, 140) ∧
    (choose_best_crop ⟨1920, 1080⟩ obsC1 limsC1).map rect = some (1920, 1080, 0, 0) := by
  refine ⟨by decide, by decide, by decide⟩

/-- Claim C1, amended.  For the spec's concrete full-frame-penalty test case
(`W=1920, H=1080`; full-frame key count 10 at thresholds `{0.1}`; crop key
`1920:800:0:140` count 10 at thresholds `{0.1}`), `choose_best_crop` returns
the full-frame candidate `1920:1080:0:0` (confidence `1/2`, 20 samples,
agreeing thresholds `[0.1]`, single-threshold tier) in either insertion
order: the `-5` penalty tips the comparison only against candidates whose raw
score is within `5`, and here the full frame's raw score exceeds the crop's
by `1000/27 - 5 ≈ 32.04`. -/
theorem fullframe_penalty_amended :
    choose_best_crop ⟨1920, 1080⟩ obsC1 limsC1 =
      some (mkResult obsC1 limsC1 ⟨1920, 1080, 0, 0⟩ 10) ∧
    choose_best_crop ⟨1920, 1080⟩ obsC1r limsC1 =
      some (mkResult obsC1r limsC1 ⟨1920, 1080, 0, 0⟩ 10) ∧
    (mkResult obsC1 limsC1 ⟨1920, 1080, 0, 0⟩ 10).crop = "1920:1080:0:0" ∧
    (mkResult obsC1 limsC1 ⟨1920, 1080, 0, 0⟩ 10).confidence = 1 / 2 ∧
    (mkResult obsC1 limsC1 ⟨1920, 1080, 0, 0⟩ 10).samples = 20 ∧
    (mkResult obsC1 limsC1 ⟨1920, 1080, 0, 0⟩ 10).chosen_from_limits = [1 / 10] ∧
    (mkResult obsC1 limsC1 ⟨1920, 1080, 0, 0⟩ 10).notes = "single-threshold agreement" := by
  have h1 : winningEntry ⟨1920, 1080⟩ obsC1 limsC1 = some (⟨1920, 1080, 0, 0⟩, 10) := by decide
  have h2 : winningEntry ⟨1920, 1080⟩ obsC1r limsC1 = some (⟨1920, 1080, 0, 0⟩, 10) := by decide
  have hl : limsC1 ⟨1920, 1080, 0, 0⟩ = {(1 : ℚ) / 10} := by simp [limsC1]
  refine ⟨choose_of_winning_some _ _ _ _ _ h1, choose_of_winning_some _ _ _ _ _ h2,
    by decide, by decide, by decide, ?_, by decide⟩
  show (limsC1 ⟨1920, 1080, 0, 0⟩).sort (· ≤ ·) = [1 / 10]
  rw [hl, Finset.sort_singleton]

/-- Claim C2: when `choose_best_crop` returns a result, its `samples` field is
the raw total of all observed counts (rejected keys included), and its
`confidence` is the winning key's count divided by that same raw total. -/
theorem confidence_uses_raw_total (vi : VideoInfo) (observed : Obs) (lims : Limits)
    (r : CropResult) (h : choose_best_crop vi observed lims = some r) :
    r.samples = totalCount observed ∧
    ∃ k c, winningEntry vi observed lims = some (k, c) ∧ (k, c) ∈ observed ∧
      r.confidence = (c : ℚ) / ((totalCount observed : Nat) : ℚ) := by
  obtain ⟨k, c, hw, rfl⟩ := choose_some_inv vi observed lims r h
  have hm := (winningEntry_mem vi observed lims k c hw).1
  exact ⟨rfl, k, c, hw, hm, confidence_div observed k c hm⟩

/-- The observation set used to witness Claim C2: one accepted key with
count 3 and one rejected (zero-area) key with count 1, so the raw total is 4. -/
def obsC2 : Obs := [(⟨50, 50, 0, 0⟩, 3), (⟨0, 0, 0, 0⟩, 1)]

/-- Witness for Claim C2: on `obsC2` the winner has count 3 and the reported
confidence divides by the raw total 4, which includes the rejected key. -/
theorem confidence_uses_raw_total_witness :
    (mkResult obsC2 noLimits ⟨50, 50, 0, 0⟩ 3).samples = totalCount obsC2 ∧
    (mkResult obsC2 noLimits ⟨50, 50, 0, 0⟩ 3).confidence =
      (3 : ℚ) / ((totalCount obsC2 : Nat) : ℚ) ∧
    totalCount obsC2 = 4 := by
  have hw : winningEntry ⟨100, 100⟩ obsC2 noLimits = some (⟨50, 50, 0, 0⟩, 3) := by decide
  have hc : choose_best_crop ⟨100, 100⟩ obsC2 noLimits =
      some (mkResult obsC2 noLimits ⟨50, 50, 0, 0⟩ 3) :=
    choose_of_winning_some _ _ _ _ _ hw
  obtain ⟨hs, k, c, hw₂, hmem, hconf⟩ :=
    confidence_uses_raw_total ⟨100, 100⟩ obsC2 noLimits _ hc
  rw [hw] at hw₂
  injection hw₂ with hpair
  injection hpair with hk hcc
  subst hk
  subst hcc
  exact ⟨hs, hconf, by decide⟩

end CropDetect

end Claims1

section Claims2
attribute [local semireducible] Rat.add Rat.mul Rat.inv Rat.sub Rat.ofScientific

namespace CropDetect

/-- A non-empty observation set whose only key has zero area, so every entry
is rejected by the loop. -/
def obsC3 : Obs := [(⟨0, 0, 0, 0⟩, 5)]

/-- Claim C3, counterexample.  The claim asserts `choose_best_crop` returns
`None` only on the empty observation set; but on the non-empty set `obsC3`
(a single zero-area key, count 5) every entry is rejected and the code
returns `None`. -/
theorem none_on_nonempty_counterexample :
    obsC3 ≠ [] ∧ choose_best_crop ⟨1920, 1080⟩ obsC3 noLimits = none := by
  refine ⟨by decide, by decide⟩

/-- Claim C3, amended.  `choose_best_crop` returns `None` if and only if every
observed key is rejected (zero area or area exceeding the full frame) — in
particular on the empty set, but also on non-empty sets whose keys are all
rejected. -/
theorem choose_none_iff_all_rejected (vi : VideoInfo) (observed : Obs) (lims : Limits) :
    choose_best_crop vi observed lims = none ↔
      ∀ e ∈ observed, area e.1.w e.1.h = 0 ∨ area vi.width vi.height < area e.1.w e.1.h := by
  constructor
  · intro h e he
    by_contra hcon
    have hacc : accepted vi e.1 := hcon
    cases hw : winningEntry vi observed lims with
    | none => exact (winningEntry_none_iff vi observed lims).mp hw e he hacc
    | some kc =>
      obtain ⟨k, c⟩ := kc
      rw [choose_of_winning_some vi observed lims k c hw] at h
      cases h
  · intro hall
    exact choose_of_winning_none vi observed lims
      ((winningEntry_none_iff vi observed lims).mpr (fun e he hacc => hacc (hall e he)))

/-- Witness for Claim C3 (amended): instantiating the iff at a concrete
all-rejected non-empty set produces the `None` result. -/
theorem choose_none_iff_all_rejected_witness :
    choose_best_crop ⟨1920, 1080⟩ [(⟨0, 0, 0, 0⟩, 7), (⟨4000, 4000, 0, 0⟩, 2)] noLimits = none :=
  (choose_none_iff_all_rejected ⟨1920, 1080⟩
    [(⟨0, 0, 0, 0⟩, 7), (⟨4000, 4000, 0, 0⟩, 2)] noLimits).mpr (by decide)

/-- Claim C4, counterexample.  The claim asserts the returned area equals
`W*H` only when the winning key is exactly `(W, H, 0, 0)`.  But the key
`2160:960:0:0` on a `1920x1080` frame has area `2160*960 = 1920*1080` — it
passes the `a > full_area` rejection test and wins, so the returned rectangle
has full-frame area without being `(1920, 1080, 0, 0)`. -/
theorem fullframe_bound_counterexample :
    (choose_best_crop ⟨1920, 1080⟩ [(⟨2160, 960, 0, 0⟩, 1)] noLimits).map rect =
      some (2160, 960, 0, 0) ∧
    area 2160 960 = area 1920 1080 ∧
    (2160, 960, 0, 0) ≠ (1920, 1080, 0, 0) := by
  refine ⟨by decide, by decide, by decide⟩

/-- Claim C4, amended.  Under the spec's own Observation invariant
(`x+w ≤ frame_width`, `y+h ≤ frame_height` for every observed key), every
returned rectangle has positive area at most `W*H`, with equality only when
the winning key is exactly `(W, H, 0, 0)`. -/
theorem fullframe_bound_amended (vi : VideoInfo) (observed : Obs) (lims : Limits)
    (r : CropResult)
    (hbounds : ∀ e ∈ observed, e.1.x + e.1.w ≤ vi.width ∧ e.1.y + e.1.h ≤ vi.height)
    (h : choose_best_crop vi observed lims = some r) :
    0 < r.w * r.h ∧ r.w * r.h ≤ vi.width * vi.height ∧
      (r.w * r.h = vi.width * vi.height →
        r.w = vi.width ∧ r.h = vi.height ∧ r.x = 0 ∧ r.y = 0) := by
  obtain ⟨k, c, hw, rfl⟩ := choose_some_inv vi observed lims r h
  obtain ⟨hmem, hacc⟩ := winningEntry_mem vi observed lims k c hw
  have hne : ¬(area k.w k.h = 0 ∨ area vi.width vi.height < area k.w k.h) := hacc
  push_neg at hne
  obtain ⟨h0, hle⟩ := hne
  have hpos : 0 < k.w * k.h := Nat.pos_of_ne_zero h0
  have hwle : k.w * k.h ≤ vi.width * vi.height := hle
  obtain ⟨hxw₀, hyh₀⟩ := hbounds (k, c) hmem
  have hxw : k.x + k.w ≤ vi.width := hxw₀
  have hyh : k.y + k.h ≤ vi.height := hyh₀
  simp only [mkResult]
  refine ⟨hpos, hwle, fun heq => ?_⟩
  have hkw : k.w ≤ vi.width := le_trans (Nat.le_add_left _ _) hxw
  have hkh : k.h ≤ vi.height := le_trans (Nat.le_add_left _ _) hyh
  have hw0 : 0 < k.w := by
    rcases Nat.eq_zero_or_pos k.w with hz | hp
    · rw [hz] at hpos; simp at hpos
    · exact hp
  have hh0 : 0 < k.h := by
    rcases Nat.eq_zero_or_pos k.h with hz | hp
    · rw [hz] at hpos; simp at hpos
    · exact hp
  have hH0 : 0 < vi.height := lt_of_lt_of_le hh0 hkh
  have hW0 : 0 < vi.width := lt_of_lt_of_le hw0 hkw
  have hkweq : k.w = vi.width := by
    by_contra hne2
    have hlt : k.w < vi.width := lt_of_le_of_ne hkw hne2
    have : k.w * k.h < vi.width * vi.height :=
      lt_of_le_of_lt (mul_le_mul_left' hkh k.w) (mul_lt_mul_of_pos_right hlt hH0)
    omega
  have hkheq : k.h = vi.height := by
    rw [hkweq] at heq
    exact Nat.eq_of_mul_eq_mul_left hW0 heq
  exact ⟨hkweq, hkheq, by omega, by omega⟩

/-- The observation set used to witness Claim C4 (amended): a single
full-frame key on a `100x100` frame, satisfying the Observation invariant. -/
def obsC4w : Obs := [(⟨100, 100, 0, 0⟩, 1)]

/-- Witness for Claim C4 (amended), instantiated on `obsC4w`: the returned
rectangle has positive area equal to the full-frame area and is exactly
`(100, 100, 0, 0)`. -/
theorem fullframe_bound_amended_witness :
    0 < (mkResult obsC4w noLimits ⟨100, 100, 0, 0⟩ 1).w *
        (mkResult obsC4w noLimits ⟨100, 100, 0, 0⟩ 1).h ∧
    (mkResult obsC4w noLimits ⟨100, 100, 0, 0⟩ 1).w *
        (mkResult obsC4w noLimits ⟨100, 100, 0, 0⟩ 1).h ≤ 100 * 100 ∧
    ((mkResult obsC4w noLimits ⟨100, 100, 0, 0⟩ 1).w *
        (mkResult obsC4w noLimits ⟨100, 100, 0, 0⟩ 1).h = 100 * 100 →
      (mkResult obsC4w noLimits ⟨100, 100, 0, 0⟩ 1).w = 100 ∧
      (mkResult obsC4w noLimits ⟨100, 100, 0, 0⟩ 1).h = 100 ∧
      (mkResult obsC4w noLimits ⟨100, 100, 0, 0⟩ 1).x = 0 ∧
      (mkResult obsC4w noLimits ⟨100, 100, 0, 0⟩ 1).y = 0) := by
  have hc : choose_best_crop ⟨100, 100⟩ obsC4w noLimits =
      some (mkResult obsC4w noLimits ⟨100, 100, 0, 0⟩ 1) :=
    choose_of_winning_some _ _ _ _ _ (by decide)
  exact fullframe_bound_amended ⟨100, 100⟩ obsC4w noLimits _ (by decide) hc

end CropDetect

end Claims2

section Claims3
attribute [local semireducible] Rat.add Rat.mul Rat.inv Rat.sub Rat.ofScientific

namespace CropDetect

/-- A candidate that is not the full frame scores exactly its three raw
components. -/
theorem score_eq_of_not_fullframe (vi : VideoInfo) (total : Nat) (lims : Limits)
    (k : CropKey) (c : Nat) (h : ¬fullframeKey vi k) :
    score vi total lims k c =
      (c : ℚ) / ((max 1 total : Nat) : ℚ) * 1000 +
        ((area k.w k.h : Nat) : ℚ) / ((area vi.width vi.height : Nat) : ℚ) * 50 +
        (lim_support lims k : ℚ) * 15 := by
  simp only [score]
  rw [if_neg h]

/-- Among two non-full-frame candidates with the same area and the same
threshold support, the one with the strictly larger count scores strictly
higher. -/
theorem score_lt_of_count_lt (vi : VideoInfo) (total : Nat) (lims : Limits)
    (k₁ k₂ : CropKey) (c₁ c₂ : Nat)
    (harea : area k₁.w k₁.h = area k₂.w k₂.h)
    (hsup : lim_support lims k₁ = lim_support lims k₂)
    (hff₁ : ¬fullframeKey vi k₁) (hff₂ : ¬fullframeKey vi k₂)
    (hcc : c₂ < c₁) :
    score vi total lims k₂ c₂ < score vi total lims k₁ c₁ := by
  rw [score_eq_of_not_fullframe vi total lims k₁ c₁ hff₁,
    score_eq_of_not_fullframe vi total lims k₂ c₂ hff₂, harea, hsup]
  have hD : (0 : ℚ) < ((max 1 total : Nat) : ℚ) := by
    have h1 : (1 : ℚ) ≤ ((max 1 total : Nat) : ℚ) := by exact_mod_cast le_max_left 1 total
    linarith
  have hfreq : (c₂ : ℚ) / ((max 1 total : Nat) : ℚ) < (c₁ : ℚ) / ((max 1 total : Nat) : ℚ) :=
    (div_lt_div_iff_of_pos_right hD).mpr (by exact_mod_cast hcc)
  have hmul := mul_lt_mul_of_pos_right hfreq (by norm_num : (0 : ℚ) < 1000)
  linarith

/-- The observation set refuting Claim C5: full frame (count 101) against the
equal-area shifted key `1920:1080:1:1` (count 100), both with one supporting
threshold.  Here `1000*(101-100)/201 = 1000/201 < 5`, so the `-5` full-frame
penalty overturns the count advantage. -/
def obsC5c : Obs := [(⟨1920, 1080, 0, 0⟩, 101), (⟨1920, 1080, 1, 1⟩, 100)]

/-- The same observation set in the opposite insertion order. -/
def obsC5cr : Obs := [(⟨1920, 1080, 1, 1⟩, 100), (⟨1920, 1080, 0, 0⟩, 101)]

/-- Claim C5, counterexample.  Keys `1920:1080:0:0` (count 101) and
`1920:1080:1:1` (count 100) have identical area and identical
threshold-support cardinality, and there is no other candidate at all; the
claim says the higher-count key must win, but the code returns the
lower-count key `1920:1080:1:1` in either insertion order, because the `-5`
full-frame penalty (5 > 1000/201) outweighs the frequency advantage. -/
theorem freq_monotonicity_counterexample :
    (choose_best_crop ⟨1920, 1080⟩ obsC5c oneTenthAll).map rect = some (1920, 1080, 1, 1) ∧
    (choose_best_crop ⟨1920, 1080⟩ obsC5cr oneTenthAll).map rect = some (1920, 1080, 1, 1) := by
  refine ⟨by decide, by decide⟩

/-- Claim C5, amended.  Frequency monotonicity holds for two equal-area,
equal-support candidates when neither of them is exactly the full frame (so
the `-5` penalty applies to neither) and every other non-rejected candidate
scores strictly below both: then the one with the strictly higher observation
count wins. -/
theorem freq_monotonicity_amended (vi : VideoInfo) (observed : Obs) (lims : Limits)
    (k₁ k₂ : CropKey) (c₁ c₂ : Nat)
    (hmem₁ : (k₁, c₁) ∈ observed) (hmem₂ : (k₂, c₂) ∈ observed)
    (harea : area k₁.w k₁.h = area k₂.w k₂.h)
    (hA0 : area k₁.w k₁.h ≠ 0) (hAle : area k₁.w k₁.h ≤ area vi.width vi.height)
    (hsup : lim_support lims k₁ = lim_support lims k₂)
    (hcc : c₂ < c₁)
    (hff₁ : ¬fullframeKey vi k₁) (hff₂ : ¬fullframeKey vi k₂)
    (hothers : ∀ e ∈ observed, accepted vi e.1 → e ≠ (k₁, c₁) → e ≠ (k₂, c₂) →
      score vi (totalCount observed) lims e.1 e.2 < score vi (totalCount observed) lims k₂ c₂) :
    choose_best_crop vi observed lims = some (mkResult observed lims k₁ c₁) := by
  have hacc₁ : accepted vi k₁ := by
    intro hor
    rcases hor with h | h
    · exact hA0 h
    · unfold area at hAle h
      omega
  have hlt := score_lt_of_count_lt vi (totalCount observed) lims k₁ k₂ c₁ c₂ harea hsup hff₁ hff₂ hcc
  have hmax : ∀ e ∈ observed, accepted vi e.1 →
      score vi (totalCount observed) lims e.1 e.2 ≤ score vi (totalCount observed) lims k₁ c₁ := by
    intro e he hacc
    by_cases h1 : e = (k₁, c₁)
    · subst h1
      exact le_refl _
    by_cases h2 : e = (k₂, c₂)
    · subst h2
      exact le_of_lt hlt
    · exact le_of_lt (lt_trans (hothers e he hacc h1 h2) hlt)
  have huniq : ∀ e ∈ observed, accepted vi e.1 →
      score vi (totalCount observed) lims e.1 e.2 = score vi (totalCount observed) lims k₁ c₁ →
      e = (k₁, c₁) := by
    intro e he hacc hs
    by_contra h1
    by_cases h2 : e = (k₂, c₂)
    · subst h2
      exact absurd hs (ne_of_lt hlt)
    · have := hothers e he hacc h1 h2
      linarith
  exact choose_of_winning_some _ _ _ _ _
    (winningEntry_eq_of_max vi observed lims k₁ c₁ hmem₁ hacc₁ hmax huniq)

/-- The observation set used to witness Claim C5 (amended): two equal-area
non-full-frame keys on a `100x100` frame with counts 2 and 1. -/
def obsC5w : Obs := [(⟨50, 50, 0, 0⟩, 2), (⟨50, 50, 10, 10⟩, 1)]

/-- Witness for Claim C5 (amended): on `obsC5w` the higher-count equal-area
candidate `50:50:0:0` wins. -/
theorem freq_monotonicity_amended_witness :
    choose_best_crop ⟨100, 100⟩ obsC5w noLimits =
      some (mkResult obsC5w noLimits ⟨50, 50, 0, 0⟩ 2) := by
  apply freq_monotonicity_amended ⟨100, 100⟩ obsC5w noLimits ⟨50, 50, 0, 0⟩ ⟨50, 50, 10, 10⟩ 2 1
  · decide
  · decide
  · decide
  · decide
  · decide
  · decide
  · decide
  · decide
  · decide
  · decide

/-- Claim C6: the `notes` field of every returned result is the agreement
tier of the winning key's threshold support followed by a fixed suffix:
`"strong"` for at least 3 supporting thresholds, `"moderate"` for exactly 2,
`"single-threshold"` for exactly 1. -/
theorem agreement_tier_labeling (vi : VideoInfo) (observed : Obs) (lims : Limits)
    (k : CropKey) (c : Nat) (r : CropResult)
    (hw : winningEntry vi observed lims = some (k, c))
    (hc : choose_best_crop vi observed lims = some r) :
    (3 ≤ lim_support lims k → r.notes = "strong agreement") ∧
    (lim_support lims k = 2 → r.notes = "moderate agreement") ∧
    (lim_support lims k = 1 → r.notes = "single-threshold agreement") := by
  have h₂ := choose_of_winning_some vi observed lims k c hw
  rw [h₂] at hc
  obtain rfl : mkResult observed lims k c = r := Option.some.inj hc
  refine ⟨fun h => ?_, fun h => ?_, fun h => ?_⟩
  · show tierNotes (lim_support lims k) ++ " agreement" = _
    simp only [tierNotes]
    rw [if_pos h]
    rfl
  · show tierNotes (lim_support lims k) ++ " agreement" = _
    simp only [tierNotes]
    rw [if_neg (by omega), if_pos h]
    rfl
  · show tierNotes (lim_support lims k) ++ " agreement" = _
    simp only [tierNotes]
    rw [if_neg (by omega), if_neg (by omega)]
    rfl

/-- The observation set used to witness Claim C6: a single accepted key. -/
def obsC6w : Obs := [(⟨50, 50, 0, 0⟩, 1)]

/-- Witness for Claim C6: with three supporting thresholds the returned notes
field is labeled strong. -/
theorem agreement_tier_labeling_witness :
    (mkResult obsC6w threeLimitsAll ⟨50, 50, 0, 0⟩ 1).notes = "strong agreement" ∧
    3 ≤ lim_support threeLimitsAll ⟨50, 50, 0, 0⟩ := by
  have hw : winningEntry ⟨100, 100⟩ obsC6w threeLimitsAll = some (⟨50, 50, 0, 0⟩, 1) := by decide
  have hc := choose_of_winning_some ⟨100, 100⟩ obsC6w threeLimitsAll ⟨50, 50, 0, 0⟩ 1 hw
  have hcard : 3 ≤ lim_support threeLimitsAll ⟨50, 50, 0, 0⟩ := by decide
  exact ⟨(agreement_tier_labeling ⟨100, 100⟩ obsC6w threeLimitsAll ⟨50, 50, 0, 0⟩ 1 _ hw hc).1
    hcard, hcard⟩

/-- Claim C7: evaluation of the manual-override synthesis at the spec's two
test inputs on a `1920x1080` frame.  Margins `top=140, bottom=140, left=0,
right=0` give `1920:800:0:140` at confidence 1 as claimed; but the overshoot
margins `top=600, bottom=600, left=0, right=0` give `1920:1080:0:600` — the
fallback restores the full-frame dimensions yet keeps `y = top = 600`,
whereas the claim (and the spec's stated intent of not propagating invalid
geometry) requires the zero-margin full frame `1920:1080:0:0`. -/
theorem manual_override_keeps_offsets :
    manual_crop_result 1920 1080 140 140 0 0 =
      ⟨"1920:800:0:140", 1920, 800, 0, 140, 1, 1, "Manual"⟩ ∧
    manual_crop_result 1920 1080 600 600 0 0 =
      ⟨"1920:1080:0:600", 1920, 1080, 0, 600, 1, 1, "Manual"⟩ ∧
    (manual_crop_result 1920 1080 600 600 0 0).y = 600 := by
  refine ⟨by decide, by decide, by decide⟩

end CropDetect

end Claims3

section Claims4
attribute [local semireducible] Rat.add Rat.mul Rat.inv Rat.sub Rat.ofScientific

namespace CropDetect

/-- Every non-empty selection of entries of a list contains one of maximal
value under any rational-valued measure. -/
theorem exists_max_entry (f : CropKey × Nat → ℚ) (P : CropKey × Nat → Prop) :
    ∀ (l : Obs), (∃ e ∈ l, P e) → ∃ e ∈ l, P e ∧ ∀ e₂ ∈ l, P e₂ → f e₂ ≤ f e := by
  intro l
  induction l with
  | nil =>
    rintro ⟨e, he, _⟩
    cases he
  | cons a rest ih =>
    intro hex
    by_cases hta : ∃ e ∈ rest, P e
    · obtain ⟨m, hm, hPm, hmax⟩ := ih hta
      by_cases hPa : P a
      · rcases le_total (f a) (f m) with hle | hle
        · refine ⟨m, List.mem_cons_of_mem _ hm, hPm, ?_⟩
          intro e₂ he₂ hP₂
          rcases List.mem_cons.mp he₂ with rfl | h₂
          · exact hle
          · exact hmax e₂ h₂ hP₂
        · refine ⟨a, List.mem_cons_self _ _, hPa, ?_⟩
          intro e₂ he₂ hP₂
          rcases List.mem_cons.mp he₂ with rfl | h₂
          · exact le_refl _
          · exact le_trans (hmax e₂ h₂ hP₂) hle
      · refine ⟨m, List.mem_cons_of_mem _ hm, hPm, ?_⟩
        intro e₂ he₂ hP₂
        rcases List.mem_cons.mp he₂ with rfl | h₂
        · exact absurd hP₂ hPa
        · exact hmax e₂ h₂ hP₂
    · obtain ⟨e, he, hPe⟩ := hex
      rcases List.mem_cons.mp he with rfl | h₂
      · refine ⟨e, List.mem_cons_self _ _, hPe, ?_⟩
        intro e₂ he₂ hP₂
        rcases List.mem_cons.mp he₂ with rfl | h₃
        · exact le_refl _
        · exact absurd ⟨e₂, h₃, hP₂⟩ hta
      · exact absurd ⟨e, h₂, hPe⟩ hta

/-- Claim C8: when all non-rejected entries receive pairwise distinct scores,
`choose_best_crop` is invariant under permuting the observation set — the
scoring is a fold over a multiset, and insertion order can matter only
through the first-seen tie-break between equal scores. -/
theorem order_invariance (vi : VideoInfo) (observed observed₂ : Obs) (lims : Limits)
    (hperm : observed.Perm observed₂)
    (hdist : ∀ e₁ ∈ observed, ∀ e₂ ∈ observed, accepted vi e₁.1 → accepted vi e₂.1 →
      e₁ ≠ e₂ →
      score vi (totalCount observed) lims e₁.1 e₁.2 ≠
        score vi (totalCount observed) lims e₂.1 e₂.2) :
    choose_best_crop vi observed lims = choose_best_crop vi observed₂ lims := by
  have htot : totalCount observed = totalCount observed₂ := by
    unfold totalCount
    exact (hperm.map Prod.snd).sum_eq
  by_cases hacc : ∃ e ∈ observed, accepted vi e.1
  · obtain ⟨em, hmem, hPm, hmax⟩ := exists_max_entry
      (fun e => score vi (totalCount observed) lims e.1 e.2) (fun e => accepted vi e.1)
      observed hacc
    obtain ⟨k, c⟩ := em
    have huniq : ∀ e ∈ observed, accepted vi e.1 →
        score vi (totalCount observed) lims e.1 e.2 =
          score vi (totalCount observed) lims k c →
        e = (k, c) := by
      intro e he hPe hs
      by_contra hne
      exact hdist e he (k, c) hmem hPe hPm hne hs
    have h₁ : winningEntry vi observed lims = some (k, c) :=
      winningEntry_eq_of_max vi observed lims k c hmem hPm hmax huniq
    have hmem₂ : (k, c) ∈ observed₂ := hperm.subset hmem
    have hmax₂ : ∀ e ∈ observed₂, accepted vi e.1 →
        score vi (totalCount observed₂) lims e.1 e.2 ≤
          score vi (totalCount observed₂) lims k c := by
      intro e he hPe
      rw [← htot]
      exact hmax e (hperm.symm.subset he) hPe
    have huniq₂ : ∀ e ∈ observed₂, accepted vi e.1 →
        score vi (totalCount observed₂) lims e.1 e.2 =
          score vi (totalCount observed₂) lims k c →
        e = (k, c) := by
      intro e he hPe hs
      rw [← htot] at hs
      exact huniq e (hperm.symm.subset he) hPe hs
    have h₂ : winningEntry vi observed₂ lims = some (k, c) :=
      winningEntry_eq_of_max vi observed₂ lims k c hmem₂ hPm hmax₂ huniq₂
    rw [choose_of_winning_some _ _ _ _ _ h₁, choose_of_winning_some _ _ _ _ _ h₂]
    congr 1
    unfold mkResult
    rw [htot]
  · push_neg at hacc
    have h₁ : winningEntry vi observed lims = none :=
      (winningEntry_none_iff vi observed lims).mpr hacc
    have h₂ : winningEntry vi observed₂ lims = none :=
      (winningEntry_none_iff vi observed₂ lims).mpr
        (fun e he => hacc e (hperm.symm.subset he))
    rw [choose_of_winning_none _ _ _ h₁, choose_of_winning_none _ _ _ h₂]

/-- A two-entry observation set whose accepted entries score distinctly. -/
def obsC8a : Obs := [(⟨100, 100, 0, 0⟩, 2), (⟨50, 50, 0, 0⟩, 1)]

/-- The same entries in the opposite insertion order. -/
def obsC8b : Obs := [(⟨50, 50, 0, 0⟩, 1), (⟨100, 100, 0, 0⟩, 2)]

/-- Witness for Claim C8: swapping the two entries of `obsC8a` leaves the
result unchanged. -/
theorem order_invariance_witness :
    choose_best_crop ⟨200, 200⟩ obsC8a noLimits = choose_best_crop ⟨200, 200⟩ obsC8b noLimits := by
  apply order_invariance
  · show obsC8a.Perm obsC8b
    unfold obsC8a obsC8b
    exact List.Perm.swap _ _ _
  · decide

end CropDetect

namespace WorkerCount

/-- Claim C9: `get_optimal_workers` always returns at least 1 — it returns 1
when `av1an` cannot be started or no RAM usage was measured, and otherwise
`max(1, min(int(0.9*total_ram / peak_rss), int(cpu_threads / 3)))` — so the
worker count written to the config file by the `__main__` block is never 0 or
negative. -/
theorem workers_at_least_one :
    ∀ (started sample : Bool) (rss ram cpu : Nat),
      1 ≤ get_optimal_workers started rss ram cpu ∧
      get_optimal_workers false rss ram cpu = 1 ∧
      get_optimal_workers true 0 ram cpu = 1 ∧
      get_optimal_workers true (rss + 1) ram cpu =
        max 1 (min (9 * ram / (10 * (rss + 1))) (cpu / 3)) ∧
      1 ≤ main_workers sample started rss ram cpu := by
  have hbound : ∀ (st : Bool) (rss ram cpu : Nat), 1 ≤ get_optimal_workers st rss ram cpu := by
    intro st rss ram cpu
    cases st with
    | false => simp [get_optimal_workers]
    | true =>
      by_cases h : rss = 0
      · simp [get_optimal_workers, h]
      · simp only [get_optimal_workers, if_pos rfl, if_neg h]
        exact le_max_left _ _
  intro started sample rss ram cpu
  refine ⟨hbound started rss ram cpu, rfl, rfl, ?_, ?_⟩
  · simp [get_optimal_workers]
  · unfold main_workers
    cases sample with
    | false => simp
    | true => simpa using hbound started rss ram cpu

end WorkerCount

namespace Opus

/-- Claim C10: the Opus bitrate strategy is total and monotone — the selected
bitrate is always one of `"96"`, `"128"`, `"256"`, `"320"`; it is `"320"` for
8 or more parsed channels, `"256"` for 6 or 7, `"128"` for 2 to 5, `"96"`
below 2, and `"128"` whenever the probed string does not parse (while channel
probing itself falls back to the string `"2"`); and the numeric bitrate is
non-decreasing in the parsed channel count. -/
theorem bitrate_total_monotone :
    ∀ (c : Option Int) (ch m n : Int), m ≤ n →
      opus_bitrate c ∈ (["96", "128", "256", "320"] : List String) ∧
      opus_bitrate none = "128" ∧
      get_audio_channels_fallback = "2" ∧
      opus_bitrate (some ch) = toString (opus_bitrate_num ch) ∧
      (8 ≤ ch → opus_bitrate (some ch) = "320") ∧
      (6 ≤ ch → ch < 8 → opus_bitrate (some ch) = "256") ∧
      (2 ≤ ch → ch < 6 → opus_bitrate (some ch) = "128") ∧
      (ch < 2 → opus_bitrate (some ch) = "96") ∧
      opus_bitrate_num m ≤ opus_bitrate_num n := by
  intro c ch m n hmn
  have hsome : ∀ v : Int, opus_bitrate (some v) =
      if 8 ≤ v then "320" else if 6 ≤ v then "256" else if 2 ≤ v then "128" else "96" :=
    fun v => rfl
  refine ⟨?_, rfl, rfl, ?_, ?_, ?_, ?_, ?_, ?_⟩
  · cases c with
    | none => simp [opus_bitrate]
    | some v =>
      rw [hsome]
      split_ifs <;> simp
  · rw [hsome]
    unfold opus_bitrate_num
    split_ifs <;> rfl
  · intro h
    rw [hsome, if_pos h]
  · intro h6 h8
    rw [hsome, if_neg (by omega), if_pos h6]
  · intro h2 h6
    rw [hsome, if_neg (by omega), if_neg (by omega), if_pos h2]
  · intro h2
    rw [hsome, if_neg (by omega), if_neg (by omega), if_neg (by omega)]
  · unfold opus_bitrate_num
    split_ifs <;> omega

/-- Witness for Claim C10: the mapping at concrete channel counts, obtained
by instantiating the theorem at `m = 2 ≤ n = 8` and `ch = 6`. -/
theorem bitrate_total_monotone_witness :
    opus_bitrate none = "128" ∧ opus_bitrate (some 6) = "256" ∧
      opus_bitrate_num 2 ≤ opus_bitrate_num 8 := by
  have h := bitrate_total_monotone none 6 2 8 (by decide)
  exact ⟨h.2.1, h.2.2.2.2.2.1 (by decide) (by decide), h.2.2.2.2.2.2.2.2⟩

end Opus

end Claims4
